import Mathlib

/-!
Verification of the thumbnailer program (src/main.rs).

The program samples evenly spaced frames from a video, retries on black
frames, tiles the frames into a mosaic and overlays a caption.  All pixel
work is delegated to external tool invocations; the logic verified here is
the pure decision logic of the program:

* `escape_ffmpeg_drawtext_text` — the drawtext escaping function, embedded
  over `List Char` as the four sequential character replacements of the
  source.
* `find_default_font` — the ordered font-path search, embedded over an
  abstract "exists on disk" predicate.
* `is_video_file` — the extension allow-list check.
* `create_thumbnail_mosaic` — the per-video pipeline, embedded as a pure
  function of an `Env` record describing the outcomes of every external
  process invocation, returning the `Except` result together with the
  ordered trace of invocations issued.  `f64` timestamps and durations are
  idealised as rationals (`ℚ`); exact-arithmetic properties of the sampling
  schedule are stated over that idealisation.
* `runDirectory` / `runSingle` — the driver in directory and single-file
  mode.
-/

/-- A character that the drawtext escaping must escape: backslash, colon
and the two parentheses (src/main.rs lines 70-73). -/
def specialChar (c : Char) : Bool :=
  c = '\\' || c = ':' || c = '(' || c = ')'

/-- Rust `str::replace` with a single-character pattern: every occurrence
of `c` in the input is replaced by the string `r`. -/
def replaceChar (c : Char) (r : List Char) : List Char → List Char
  | [] => []
  | x :: xs => if x = c then r ++ replaceChar c r xs else x :: replaceChar c r xs

/-- Escape text for FFmpeg drawtext filter (src/main.rs lines 69-74):
four sequential `replace` passes, first doubling backslashes, then
prefixing a backslash to each colon and each parenthesis. -/
def escape_ffmpeg_drawtext_text (text : List Char) : List Char :=
  replaceChar ')' ['\\', ')']
    (replaceChar '(' ['\\', '(']
      (replaceChar ':' ['\\', ':']
        (replaceChar '\\' ['\\', '\\'] text)))

/-- Single-character escaping: a special character becomes a backslash
followed by itself, every other character is kept. -/
def escapeChar (c : Char) : List Char :=
  if specialChar c then ['\\', c] else [c]

/-- Single-pass form of the escaping: concatenation of `escapeChar` over
the input.  Proved equal to `escape_ffmpeg_drawtext_text` below. -/
def escapeList : List Char → List Char
  | [] => []
  | c :: cs => escapeChar c ++ escapeList cs

/-- A character list in which no special character appears unescaped: it
splits into blocks that are either a single non-special character or a
backslash followed by the special character it escapes. -/
def wellEscaped : List Char → Bool
  | [] => true
  | c :: rest =>
    if c = '\\' then
      match rest with
      | [] => false
      | d :: rest2 => specialChar d && wellEscaped rest2
    else !specialChar c && wellEscaped rest

/-- The drawtext filter argument built at src/main.rs lines 199-206: the
same escaping function is applied to the font path and to the caption
text before both are embedded in the filter string. -/
def buildDrawtextFilter (fontPath text : List Char) : List Char :=
  "drawtext=fontfile=\x27".toList ++ escape_ffmpeg_drawtext_text fontPath
    ++ "\x27:text=\x27".toList ++ escape_ffmpeg_drawtext_text text
    ++ "\x27:x=10:y=10:fontsize=96:fontcolor=white:box=1:boxcolor=black@0.5".toList

/-- The fixed ordered candidate font list of src/main.rs lines 10-20:
Linux, then macOS, then Windows paths. -/
def font_paths : List String :=
  ["/usr/share/fonts/truetype/dejavu/DejaVuSans.ttf",
   "/usr/share/fonts/truetype/freefont/FreeSans.ttf",
   "/System/Library/Fonts/SFNSDisplay.ttf",
   "/Library/Fonts/Arial.ttf",
   "C:/Windows/Fonts/arial.ttf",
   "C:/Windows/Fonts/segoeui.ttf"]

/-- Find a default system font (src/main.rs lines 9-23): the first
candidate path for which the filesystem-existence check succeeds.  The
`fs::metadata(path).is_ok()` test is abstracted as the predicate
`existsOnDisk`. -/
def find_default_font (existsOnDisk : String → Bool) : Option String :=
  font_paths.find? existsOnDisk

/-- The extension allow-list of src/main.rs lines 117-119. -/
def video_extensions : List String :=
  ["mp4", "mov", "avi", "mkv", "webm", "m4v", "wmv", "mpg", "mpeg", "ts"]

/-- Check if a file is a video based on extension (src/main.rs lines
115-120).  The input is the file's extension as returned by
`Path::extension().and_then(to_str)` — `none` when the path has no
extension (or it is not valid UTF-8); Rust's `to_lowercase` is modelled
by Lean's per-character ASCII `String.toLower`, which agrees with it on
ASCII extensions. -/
def is_video_file (ext : Option String) : Bool :=
  video_extensions.contains ((ext.getD "").toLower)

/-- One external process invocation issued by the pipeline, in the order
they appear in `create_thumbnail_mosaic`. -/
inductive ExtCall where
  | probeDuration
  | extract (timestamp : ℚ)
  | blackCheck (timestamp : ℚ)
  | composite
  | probeResolution
  | overlay
  deriving DecidableEq, Repr

/-- The distinct error exits of `create_thumbnail_mosaic`, one per `?`
operator in the source, labelled by the `with_context` message site. -/
inductive PipelineError where
  | tempDirError
  | probeSpawnError
  | probeParseError
  | extractError (timestamp : ℚ)
  | blackCheckError (timestamp : ℚ)
  | compositeError
  | resolutionError
  | noFontFound
  | filesizeError
  | overlayError
  deriving DecidableEq, Repr

/-- Outcome of every external interaction a run of
`create_thumbnail_mosaic` can perform.  A `SpawnOk` field is whether the
corresponding `Command` could be started at all (`.status()`/`.output()`
returning `Ok`); the source never inspects the child's exit status.
`durationParse` is the parse of the duration probe's stdout (`none` =
not a valid number).  `blackCheckResult t` is `none` when the blackframe
ffmpeg run cannot be spawned, otherwise `some b` with `b` = "stderr
contains the blackframe marker".  `compositeExitSuccess` and
`framesPresent` describe the composite child's reported exit status and
the number of `thumb_*.jpg` files on disk; the source reads neither, and
no field of the model depends on them. -/
structure Env where
  tempdirOk : Bool
  durationSpawnOk : Bool
  durationParse : Option ℚ
  extractSpawnOk : ℚ → Bool
  blackCheckResult : ℚ → Option Bool
  compositeSpawnOk : Bool
  compositeExitSuccess : Bool
  framesPresent : ℕ
  resolutionSpawnOk : Bool
  fontExists : String → Bool
  filesizeOk : Bool
  overlaySpawnOk : Bool

/-- The `max_attempts` bound of src/main.rs line 137. -/
def maxAttempts : ℕ := 5

/-- The inner retry loop of src/main.rs lines 143-162 for one frame
index, started at the given attempt count and timestamp: extract a frame
(error if the extraction command cannot be spawned), run black-frame
detection (error if that command cannot be spawned), and if the frame is
black and attempts remain, retry 2 seconds later; otherwise accept the
current timestamp.  Returns the accepted timestamp (or the error) and
the trace of invocations issued. -/
def sampleIndex (env : Env) (attempt : ℕ) (timestamp : ℚ) :
    Except PipelineError ℚ × List ExtCall :=
  if env.extractSpawnOk timestamp then
    match env.blackCheckResult timestamp with
    | none => (.error (.blackCheckError timestamp),
               [.extract timestamp, .blackCheck timestamp])
    | some isBlack =>
      if h : isBlack = true ∧ attempt < maxAttempts then
        let rest := sampleIndex env (attempt + 1) (timestamp + 2)
        (rest.1, .extract timestamp :: .blackCheck timestamp :: rest.2)
      else
        (.ok timestamp, [.extract timestamp, .blackCheck timestamp])
  else
    (.error (.extractError timestamp), [.extract timestamp])
termination_by maxAttempts - attempt
decreasing_by
  simp [maxAttempts] at *
  omega

/-- The outer sampling loop of src/main.rs lines 135-163: for each index
`i` in order, run the retry loop starting at attempt 0 and timestamp
`interval * i`, aborting on the first error. -/
def sampleFrames (env : Env) (interval : ℚ) :
    List ℕ → Except PipelineError Unit × List ExtCall
  | [] => (.ok (), [])
  | i :: rest =>
    let r := sampleIndex env 0 (interval * (i : ℚ))
    match r.1 with
    | .error e => (.error e, r.2)
    | .ok _ =>
      let r2 := sampleFrames env interval rest
      (r2.1, r.2 ++ r2.2)

/-- The initial (attempt-0) sampled timestamp for frame index `i`
(src/main.rs lines 132 and 136): `interval * i` with
`interval = duration / total_frames`. -/
def initialTimestamp (duration : ℚ) (total_frames : ℕ) (i : ℕ) : ℚ :=
  (duration / (total_frames : ℚ)) * (i : ℚ)

/-- The frame-extraction invocations of a trace, by timestamp. -/
def extractTs (trace : List ExtCall) : List ℚ :=
  trace.filterMap fun c =>
    match c with
    | .extract t => some t
    | _ => none

/-- The stages of `create_thumbnail_mosaic` after sampling succeeded
(src/main.rs lines 165-217): invoke the composite (`CompositeError` only
when the command cannot be spawned — the child's exit status is never
inspected), run the resolution probe, resolve a font, read the file size
and invoke the overlay.  `pre` is the trace accumulated so far. -/
def afterSampling (env : Env) (pre : List ExtCall) :
    Except PipelineError Unit × List ExtCall :=
  if env.compositeSpawnOk then
    if env.resolutionSpawnOk then
      match find_default_font env.fontExists with
      | none => (.error .noFontFound, pre ++ [.composite, .probeResolution])
      | some _font =>
        if env.filesizeOk then
          if env.overlaySpawnOk then
            (.ok (), pre ++ [.composite, .probeResolution, .overlay])
          else
            (.error .overlayError,
             pre ++ [.composite, .probeResolution, .overlay])
        else
          (.error .filesizeError, pre ++ [.composite, .probeResolution])
    else
      (.error .resolutionError, pre ++ [.composite, .probeResolution])
  else
    (.error .compositeError, pre ++ [.composite])

/-- The function `create_thumbnail_mosaic` (src/main.rs lines 123-218) as a function
of the external world: create the temp dir, probe and parse the
duration, sample all frames with retry, then run the `afterSampling`
stages — each step aborting exactly where a `?` in the source
propagates.  The `rows` and `cols` arguments only shape the tile
argument string in the source and affect no control flow.  Returns the
`Result` and the ordered trace of external invocations issued. -/
def create_thumbnail_mosaic (env : Env) (rows cols total_frames : ℕ) :
    Except PipelineError Unit × List ExtCall :=
  if env.tempdirOk then
    if env.durationSpawnOk then
      match env.durationParse with
      | none => (.error .probeParseError, [.probeDuration])
      | some duration =>
        let interval := duration / (total_frames : ℚ)
        let s := sampleFrames env interval (List.range total_frames)
        match s.1 with
        | .error e => (.error e, .probeDuration :: s.2)
        | .ok _ => afterSampling env (.probeDuration :: s.2)
    else (.error .probeSpawnError, [.probeDuration])
  else (.error .tempDirError, [])

/-- A directory entry as the driver sees it: regular-file flag, extension
(as for `is_video_file`) and name. -/
structure FileInfo where
  isFile : Bool
  ext : Option String
  name : String
  deriving DecidableEq, Repr

/-- The directory branch of `main` (src/main.rs lines 87-101): iterate
over the entries of `read_dir` (an `Err` entry aborts the whole batch via
`?`), and for each regular file passing `is_video_file` run the pipeline,
recording its per-file result; a per-file pipeline error is only logged
and iteration continues.  Returns the processed files in order, each with
its own pipeline result. -/
def runDirectory (pipeline : FileInfo → Except PipelineError Unit) :
    List (Except String FileInfo) →
      Except String (List (FileInfo × Except PipelineError Unit))
  | [] => .ok []
  | .error e :: _ => .error e
  | .ok f :: rest =>
    if f.isFile && is_video_file f.ext then
      match runDirectory pipeline rest with
      | .error e => .error e
      | .ok results => .ok ((f, pipeline f) :: results)
    else runDirectory pipeline rest

/-- The single-file branch of `main` (src/main.rs lines 102-105): the
pipeline's error propagates via `?` and becomes `main`'s non-zero
result. -/
def runSingle (pipeline : FileInfo → Except PipelineError Unit)
    (f : FileInfo) : Except PipelineError Unit :=
  pipeline f

/-- A world in which every external command spawns, the duration parses
to 1, no frame is ever detected black, every font exists — but the
composite child reports a failing exit status and zero frame files are
present on disk. -/
def envCompositeFail : Env where
  tempdirOk := true
  durationSpawnOk := true
  durationParse := some 1
  extractSpawnOk := fun _ => true
  blackCheckResult := fun _ => some false
  compositeSpawnOk := true
  compositeExitSuccess := false
  framesPresent := 0
  resolutionSpawnOk := true
  fontExists := fun _ => true
  filesizeOk := true
  overlaySpawnOk := true

/-- A world in which the duration probe runs but its output does not
parse as a number; everything else succeeds. -/
def envBadProbe : Env where
  tempdirOk := true
  durationSpawnOk := true
  durationParse := none
  extractSpawnOk := fun _ => true
  blackCheckResult := fun _ => some false
  compositeSpawnOk := true
  compositeExitSuccess := true
  framesPresent := 9
  resolutionSpawnOk := true
  fontExists := fun _ => true
  filesizeOk := true
  overlaySpawnOk := true

/-- A world in which no candidate font path exists on disk; everything
else succeeds. -/
def envNoFont : Env where
  tempdirOk := true
  durationSpawnOk := true
  durationParse := some 1
  extractSpawnOk := fun _ => true
  blackCheckResult := fun _ => some false
  compositeSpawnOk := true
  compositeExitSuccess := true
  framesPresent := 9
  resolutionSpawnOk := true
  fontExists := fun _ => false
  filesizeOk := true
  overlaySpawnOk := true

theorem replaceChar_append (c : Char) (r : List Char) (a b : List Char) :
    replaceChar c r (a ++ b) = replaceChar c r a ++ replaceChar c r b := by
  induction a with
  | nil => rfl
  | cons x xs ih =>
    by_cases hx : x = c <;> simp [replaceChar, hx, ih]

theorem escape_cons (c : Char) (cs : List Char) :
    escape_ffmpeg_drawtext_text (c :: cs)
      = escapeChar c ++ escape_ffmpeg_drawtext_text cs := by
  by_cases h1 : c = '\\'
  · subst h1
    simp [escape_ffmpeg_drawtext_text, replaceChar, replaceChar_append,
      escapeChar, specialChar]
  · by_cases h2 : c = ':'
    · subst h2
      simp [escape_ffmpeg_drawtext_text, replaceChar, replaceChar_append,
        escapeChar, specialChar]
    · by_cases h3 : c = '('
      · subst h3
        simp [escape_ffmpeg_drawtext_text, replaceChar, replaceChar_append,
          escapeChar, specialChar]
      · by_cases h4 : c = ')'
        · subst h4
          simp [escape_ffmpeg_drawtext_text, replaceChar, replaceChar_append,
            escapeChar, specialChar]
        · simp [escape_ffmpeg_drawtext_text, replaceChar, escapeChar,
            specialChar, h1, h2, h3, h4]

theorem escape_eq_escapeList (s : List Char) :
    escape_ffmpeg_drawtext_text s = escapeList s := by
  induction s with
  | nil => rfl
  | cons c cs ih => rw [escape_cons, escapeList, ih]

theorem escapeList_id_of_safe (s : List Char)
    (h : ∀ c ∈ s, specialChar c = false) : escapeList s = s := by
  induction s with
  | nil => rfl
  | cons c cs ih =>
    have hc : specialChar c = false := h c (List.mem_cons_self c cs)
    simp [escapeList, escapeChar, hc]
    exact ih fun d hd => h d (List.mem_cons_of_mem c hd)

theorem wellEscaped_escapeList (s : List Char) :
    wellEscaped (escapeList s) = true := by
  induction s with
  | nil => rfl
  | cons c cs ih =>
    cases hc : specialChar c with
    | true =>
      rw [escapeList]
      simp only [escapeChar, hc, if_pos, List.cons_append, List.nil_append]
      rw [wellEscaped.eq_def]
      simp [hc, ih]
    | false =>
      have hb : c ≠ '\\' := by
        intro h
        rw [h] at hc
        exact absurd hc (by decide)
      rw [escapeList]
      simp only [escapeChar, hc, Bool.false_eq_true, if_neg,
        List.cons_append, List.nil_append]
      rw [wellEscaped.eq_def]
      simp [hb, hc, ih]

theorem escapeChar_ne_nil (c : Char) : escapeChar c ≠ [] := by
  by_cases hc : specialChar c = true <;> simp [escapeChar, hc]

theorem escapeList_injective : ∀ s t : List Char,
    escapeList s = escapeList t → s = t := by
  intro s
  induction s with
  | nil =>
    intro t h
    cases t with
    | nil => rfl
    | cons d ds =>
      exfalso
      rw [escapeList, escapeList] at h
      rcases List.append_eq_nil.mp h.symm with ⟨h1, _⟩
      exact escapeChar_ne_nil d h1
  | cons c cs ih =>
    intro t h
    cases t with
    | nil =>
      exfalso
      rw [escapeList, escapeList] at h
      rcases List.append_eq_nil.mp h with ⟨h1, _⟩
      exact escapeChar_ne_nil c h1
    | cons d ds =>
      rw [escapeList, escapeList] at h
      cases hc : specialChar c with
      | true =>
        cases hd : specialChar d with
        | true =>
          simp [escapeChar, hc, hd] at h
          rw [h.1, ih ds h.2]
        | false =>
          exfalso
          simp [escapeChar, hc, hd] at h
          have hds : d = '\\' := h.1.symm
          rw [hds] at hd
          exact absurd hd (by decide)
      | false =>
        cases hd : specialChar d with
        | true =>
          exfalso
          simp [escapeChar, hc, hd] at h
          have hcs : c = '\\' := h.1
          rw [hcs] at hc
          exact absurd hc (by decide)
        | false =>
          simp [escapeChar, hc, hd] at h
          rw [h.1, ih ds h.2]

theorem extractTs_nil : extractTs [] = [] := rfl

theorem extractTs_extract (t : ℚ) (tr : List ExtCall) :
    extractTs (.extract t :: tr) = t :: extractTs tr := rfl

theorem extractTs_blackCheck (t : ℚ) (tr : List ExtCall) :
    extractTs (.blackCheck t :: tr) = extractTs tr := rfl

theorem range_one_map (t : ℚ) :
    (List.range 1).map (fun k : ℕ => t + 2 * (k : ℚ)) = [t] := by
  have h1 : List.range 1 = [0] := rfl
  rw [h1, List.map_cons, List.map_nil]
  norm_num

theorem map_shift (t : ℚ) (m : ℕ) :
    t :: (List.range (m + 1)).map (fun k : ℕ => (t + 2) + 2 * (k : ℚ))
      = (List.range (m + 2)).map (fun k : ℕ => t + 2 * (k : ℚ)) := by
  rw [show m + 2 = (m + 1) + 1 from rfl]
  conv_rhs => rw [List.range_succ_eq_map]
  rw [List.map_cons, List.map_map]
  congr 1
  · norm_num
  apply List.map_congr_left
  intro k _
  simp only [Function.comp_apply, Nat.succ_eq_add_one]
  push_cast
  ring

theorem sampleIndex_spec (env : Env) :
    ∀ (n attempt : ℕ) (t : ℚ), maxAttempts - attempt = n →
    ∃ m : ℕ, m ≤ n ∧
      extractTs (sampleIndex env attempt t).2
        = (List.range (m + 1)).map (fun k : ℕ => t + 2 * (k : ℚ)) ∧
      (∀ u, (sampleIndex env attempt t).1 = .ok u →
        u = t + 2 * (m : ℚ) ∧
        ∃ b, env.blackCheckResult u = some b ∧
          (b = false ∨ maxAttempts ≤ attempt + m)) ∧
      (∀ e, (sampleIndex env attempt t).1 = .error e →
        (e = .extractError (t + 2 * (m : ℚ))
            ∧ env.extractSpawnOk (t + 2 * (m : ℚ)) = false) ∨
        (e = .blackCheckError (t + 2 * (m : ℚ))
            ∧ env.blackCheckResult (t + 2 * (m : ℚ)) = none)) := by
  intro n
  induction n with
  | zero =>
    intro attempt t hn
    have ha : maxAttempts ≤ attempt := Nat.le_of_sub_eq_zero hn
    have hz : t + 2 * ((0 : ℕ) : ℚ) = t := by norm_num
    refine ⟨0, le_refl 0, ?_⟩
    by_cases hs : env.extractSpawnOk t = true
    · cases hb : env.blackCheckResult t with
      | none =>
        have hstep : sampleIndex env attempt t
            = (.error (.blackCheckError t), [.extract t, .blackCheck t]) := by
          rw [sampleIndex.eq_def, if_pos hs, hb]
        rw [hstep]
        refine ⟨by rw [range_one_map]; rfl, ?_, ?_⟩
        · intro u hu; simp at hu
        · intro e he
          simp only [] at he
          injection he with he2
          subst he2
          exact Or.inr ⟨by rw [hz], by rw [hz]; exact hb⟩
      | some b =>
        have hcond : ¬(b = true ∧ attempt < maxAttempts) := by
          rintro ⟨-, hlt⟩
          omega
        have hstep : sampleIndex env attempt t
            = (.ok t, [.extract t, .blackCheck t]) := by
          rw [sampleIndex.eq_def, if_pos hs, hb]
          simp only [dif_neg hcond]
        rw [hstep]
        refine ⟨by rw [range_one_map]; rfl, ?_, ?_⟩
        · intro u hu
          simp only [] at hu
          injection hu with hu2
          subst hu2
          exact ⟨by rw [hz], b, hb, Or.inr (by omega)⟩
        · intro e he; simp at he
    · have hstep : sampleIndex env attempt t
          = (.error (.extractError t), [.extract t]) := by
        rw [sampleIndex.eq_def, if_neg hs]
      rw [hstep]
      refine ⟨by rw [range_one_map]; rfl, ?_, ?_⟩
      · intro u hu; simp at hu
      · intro e he
        simp only [] at he
        injection he with he2
        subst he2
        exact Or.inl ⟨by rw [hz], by rw [hz]; simpa using hs⟩
  | succ n ih =>
    intro attempt t hn
    have hz : t + 2 * ((0 : ℕ) : ℚ) = t := by norm_num
    by_cases hs : env.extractSpawnOk t = true
    · cases hb : env.blackCheckResult t with
      | none =>
        have hstep : sampleIndex env attempt t
            = (.error (.blackCheckError t), [.extract t, .blackCheck t]) := by
          rw [sampleIndex.eq_def, if_pos hs, hb]
        rw [hstep]
        refine ⟨0, Nat.zero_le _, by rw [range_one_map]; rfl, ?_, ?_⟩
        · intro u hu; simp at hu
        · intro e he
          simp only [] at he
          injection he with he2
          subst he2
          exact Or.inr ⟨by rw [hz], by rw [hz]; exact hb⟩
      | some b =>
        by_cases hcond : b = true ∧ attempt < maxAttempts
        · have hn2 : maxAttempts - (attempt + 1) = n := by omega
          obtain ⟨m, hm, htr, hok, herr⟩ := ih (attempt + 1) (t + 2) hn2
          have hstep : sampleIndex env attempt t
              = ((sampleIndex env (attempt + 1) (t + 2)).1,
                 .extract t :: .blackCheck t
                   :: (sampleIndex env (attempt + 1) (t + 2)).2) := by
            rw [sampleIndex.eq_def, if_pos hs, hb]
            simp only [dif_pos hcond]
          rw [hstep]
          have harith : (t + 2) + 2 * (m : ℚ) = t + 2 * (((m + 1) : ℕ) : ℚ) := by
            push_cast; ring
          refine ⟨m + 1, by omega, ?_, ?_, ?_⟩
          · rw [extractTs_extract, extractTs_blackCheck, htr]
            rw [show m + 1 + 1 = m + 2 from rfl, ← map_shift]
          · intro u hu
            simp only [] at hu
            obtain ⟨h1, b2, h2, h3⟩ := hok u hu
            refine ⟨by rw [h1, harith], b2, h2, ?_⟩
            rcases h3 with h3 | h3
            · exact Or.inl h3
            · exact Or.inr (by omega)
          · intro e he
            simp only [] at he
            rcases herr e he with ⟨h5, h6⟩ | ⟨h5, h6⟩
            · exact Or.inl ⟨by rw [h5, harith], by rw [← harith]; exact h6⟩
            · exact Or.inr ⟨by rw [h5, harith], by rw [← harith]; exact h6⟩
        · have hstep : sampleIndex env attempt t
              = (.ok t, [.extract t, .blackCheck t]) := by
            rw [sampleIndex.eq_def, if_pos hs, hb]
            simp only [dif_neg hcond]
          rw [hstep]
          refine ⟨0, Nat.zero_le _, by rw [range_one_map]; rfl, ?_, ?_⟩
          · intro u hu
            simp only [] at hu
            injection hu with hu2
            subst hu2
            refine ⟨by rw [hz], b, hb, ?_⟩
            rcases Decidable.not_and_iff_or_not.mp hcond with h | h
            · exact Or.inl (by simpa using h)
            · exact Or.inr (by omega)
          · intro e he; simp at he
    · have hstep : sampleIndex env attempt t
          = (.error (.extractError t), [.extract t]) := by
        rw [sampleIndex.eq_def, if_neg hs]
      rw [hstep]
      refine ⟨0, Nat.zero_le _, by rw [range_one_map]; rfl, ?_, ?_⟩
      · intro u hu; simp at hu
      · intro e he
        simp only [] at he
        injection he with he2
        subst he2
        exact Or.inl ⟨by rw [hz], by rw [hz]; simpa using hs⟩

theorem create_eq_afterSampling (env : Env) (rows cols total : ℕ) (d : ℚ)
    (h1 : env.tempdirOk = true) (h2 : env.durationSpawnOk = true)
    (h3 : env.durationParse = some d)
    (h4 : (sampleFrames env (d / (total : ℚ)) (List.range total)).1 = .ok ()) :
    create_thumbnail_mosaic env rows cols total
      = afterSampling env
          (.probeDuration
            :: (sampleFrames env (d / (total : ℚ)) (List.range total)).2) := by
  unfold create_thumbnail_mosaic
  rw [if_pos h1, if_pos h2, h3]
  simp only [h4]

theorem afterSampling_ne_compositeError (env : Env) (pre : List ExtCall)
    (hc : env.compositeSpawnOk = true) :
    (afterSampling env pre).1 ≠ .error .compositeError := by
  unfold afterSampling
  rw [if_pos hc]
  by_cases hr : env.resolutionSpawnOk = true
  · rw [if_pos hr]
    cases hf : find_default_font env.fontExists with
    | none => simp
    | some s =>
      by_cases hz : env.filesizeOk = true
      · rw [if_pos hz]
        by_cases ho : env.overlaySpawnOk = true
        · rw [if_pos ho]; simp
        · rw [if_neg ho]; simp
      · rw [if_neg hz]; simp
  · rw [if_neg hr]; simp

theorem afterSampling_compositeError (env : Env) (pre : List ExtCall)
    (hc : env.compositeSpawnOk = false) :
    afterSampling env pre = (.error .compositeError, pre ++ [.composite]) := by
  unfold afterSampling
  rw [if_neg (by rw [hc]; exact Bool.false_ne_true)]

theorem afterSampling_noFont (env : Env) (pre : List ExtCall)
    (hc : env.compositeSpawnOk = true) (hr : env.resolutionSpawnOk = true)
    (hf : find_default_font env.fontExists = none) :
    afterSampling env pre
      = (.error .noFontFound, pre ++ [.composite, .probeResolution]) := by
  unfold afterSampling
  rw [if_pos hc, if_pos hr, hf]

theorem runDirectory_map_ok (p : FileInfo → Except PipelineError Unit) :
    ∀ es : List FileInfo,
      runDirectory p (es.map Except.ok)
        = .ok ((es.filter fun g => g.isFile && is_video_file g.ext).map
            fun g => (g, p g)) := by
  intro es
  induction es with
  | nil => rfl
  | cons f rest ih =>
    rw [List.map_cons]
    cases hf : (f.isFile && is_video_file f.ext) with
    | true =>
      rw [runDirectory, if_pos hf, ih]
      simp [List.filter_cons, hf]
    | false =>
      rw [runDirectory, if_neg (by simp [hf]), ih]
      simp [List.filter_cons, hf]

theorem find?_earliest {α : Type} (p : α → Bool) :
    ∀ (l : List α) (a : α), l.find? p = some a →
      p a = true ∧ ∃ i, ∃ hi : i < l.length, l.get ⟨i, hi⟩ = a ∧
        ∀ j, ∀ hj : j < i, p (l.get ⟨j, Nat.lt_trans hj hi⟩) = false := by
  intro l
  induction l with
  | nil => intro a h; simp [List.find?] at h
  | cons x xs ih =>
    intro a h
    cases hx : p x with
    | true =>
      rw [List.find?_cons_of_pos _ hx] at h
      injection h with h2
      subst h2
      exact ⟨hx, 0, Nat.succ_pos _, rfl, fun j hj => absurd hj (Nat.not_lt_zero j)⟩
    | false =>
      rw [List.find?_cons_of_neg _ (by simp [hx])] at h
      obtain ⟨hpa, i, hi, hget, hbefore⟩ := ih a h
      refine ⟨hpa, i + 1, Nat.succ_lt_succ hi, hget, ?_⟩
      intro j hj
      cases j with
      | zero => exact hx
      | succ j2 => exact hbefore j2 (Nat.lt_of_succ_lt_succ hj)

theorem sampleIndex_zero_black_false (env : Env) (t : ℚ)
    (hs : env.extractSpawnOk t = true)
    (hb : env.blackCheckResult t = some false) :
    sampleIndex env 0 t = (.ok t, [.extract t, .blackCheck t]) := by
  rw [sampleIndex.eq_def, if_pos hs, hb]
  simp only [dif_neg (by simp : ¬(false = true ∧ 0 < maxAttempts))]

theorem sampleFrames_ok (env : Env) (interval : ℚ)
    (hs : ∀ t, env.extractSpawnOk t = true)
    (hb : ∀ t, env.blackCheckResult t = some false) :
    ∀ l : List ℕ, (sampleFrames env interval l).1 = .ok () := by
  intro l
  induction l with
  | nil => rfl
  | cons i rest ih =>
    rw [sampleFrames, sampleIndex_zero_black_false env _ (hs _) (hb _)]
    exact ih

theorem map_range_getLast? (f : ℕ → ℚ) (m : ℕ) :
    ((List.range (m + 1)).map f).getLast? = some (f m) := by
  rw [List.range_succ, List.map_append]
  exact List.getLast?_concat _

theorem afterSampling_allOk (env : Env) (pre : List ExtCall)
    (hc : env.compositeSpawnOk = true) (hr : env.resolutionSpawnOk = true)
    (s : String) (hf : find_default_font env.fontExists = some s)
    (hz : env.filesizeOk = true) (ho : env.overlaySpawnOk = true) :
    afterSampling env pre
      = (.ok (), pre ++ [.composite, .probeResolution, .overlay]) := by
  unfold afterSampling
  rw [if_pos hc, if_pos hr, hf, if_pos hz, if_pos ho]

theorem envCompositeFail_sample (t : ℚ) :
    sampleIndex envCompositeFail 0 t = (.ok t, [.extract t, .blackCheck t]) :=
  sampleIndex_zero_black_false envCompositeFail t rfl rfl

theorem envCompositeFail_len (t : ℚ) :
    0 < (extractTs (sampleIndex envCompositeFail 0 t).2).length := by
  rw [envCompositeFail_sample]
  exact Nat.zero_lt_one

/-- C1: for every `total_frames ≥ 1` and `duration > 0`, the initial
sampled timestamps are `interval * i` with `interval = duration /
total_frames`, they are non-decreasing in `i`, and they are all below
`duration` whenever `interval * (total_frames - 1) < duration`. -/
theorem c1_initial_schedule (duration : ℚ) (total_frames : ℕ)
    (h1 : 1 ≤ total_frames) (h2 : 0 < duration) :
    (∀ i : ℕ, initialTimestamp duration total_frames i
        = duration / (total_frames : ℚ) * (i : ℚ)) ∧
    (∀ i j : ℕ, i ≤ j →
        initialTimestamp duration total_frames i
          ≤ initialTimestamp duration total_frames j) ∧
    (duration / (total_frames : ℚ) * ((total_frames - 1 : ℕ) : ℚ) < duration →
        ∀ i, i < total_frames →
          initialTimestamp duration total_frames i < duration) := by
  have hTpos : (0 : ℚ) < (total_frames : ℚ) := by
    exact_mod_cast Nat.lt_of_lt_of_le Nat.zero_lt_one h1
  have hipos : 0 < duration / (total_frames : ℚ) := div_pos h2 hTpos
  refine ⟨fun i => rfl, ?_, ?_⟩
  · intro i j hij
    unfold initialTimestamp
    have hcast : (i : ℚ) ≤ (j : ℚ) := by exact_mod_cast hij
    exact mul_le_mul_of_nonneg_left hcast (le_of_lt hipos)
  · intro hlast i hi
    have hle : (i : ℚ) ≤ ((total_frames - 1 : ℕ) : ℚ) := by
      exact_mod_cast Nat.le_pred_of_lt hi
    calc initialTimestamp duration total_frames i
        = duration / (total_frames : ℚ) * (i : ℚ) := rfl
      _ ≤ duration / (total_frames : ℚ) * ((total_frames - 1 : ℕ) : ℚ) :=
          mul_le_mul_of_nonneg_left hle (le_of_lt hipos)
      _ < duration := hlast

theorem c1_witness :
    ((1 : ℕ) ≤ 9 ∧ (0 : ℚ) < 9) ∧
    ((9 : ℚ) / ((9 : ℕ) : ℚ) * ((9 - 1 : ℕ) : ℚ) < 9 ∧
      initialTimestamp 9 9 8 < 9) :=
  ⟨⟨by norm_num, by norm_num⟩,
   ⟨by norm_num,
    (c1_initial_schedule 9 9 (by norm_num) (by norm_num)).2.2 (by norm_num)
      8 (by norm_num)⟩⟩

/-- C2: for every frame index, the black-frame retry loop (a total
function here, so it terminates) issues at most `max_attempts + 1 = 6`
frame extractions, and the `k`-th extraction (retry `k`) for index `i`
is at timestamp `interval * i + 2 * k`. -/
theorem c2_retry_schedule (env : Env) (duration : ℚ) (total i : ℕ) :
    (extractTs (sampleIndex env 0 (initialTimestamp duration total i)).2).length
      ≤ maxAttempts + 1 ∧
    ∀ k, ∀ hk : k <
        (extractTs (sampleIndex env 0 (initialTimestamp duration total i)).2).length,
      (extractTs (sampleIndex env 0 (initialTimestamp duration total i)).2).get
          ⟨k, hk⟩
        = initialTimestamp duration total i + 2 * (k : ℚ) := by
  obtain ⟨m, hm, htr, -, -⟩ :=
    sampleIndex_spec env maxAttempts 0 (initialTimestamp duration total i)
      (Nat.sub_zero _)
  constructor
  · rw [htr, List.length_map, List.length_range]
    omega
  · intro k hk
    simp only [htr, List.get_eq_getElem, List.getElem_map, List.getElem_range]

theorem c2_witness :
    0 < (extractTs (sampleIndex envCompositeFail 0 (initialTimestamp 9 9 0)).2).length ∧
    (extractTs (sampleIndex envCompositeFail 0 (initialTimestamp 9 9 0)).2).get
        ⟨0, envCompositeFail_len (initialTimestamp 9 9 0)⟩
      = initialTimestamp 9 9 0 + 2 * ((0 : ℕ) : ℚ) :=
  ⟨envCompositeFail_len _,
   (c2_retry_schedule envCompositeFail 9 9 0).2 0
     (envCompositeFail_len (initialTimestamp 9 9 0))⟩

/-- C3: the sampling loop accepts the most recently extracted frame
exactly when it is not detected black or all `max_attempts` retries have
been used (6 extractions issued); and whenever the external commands can
be spawned the loop always exits accepting a frame — never failing or
skipping the index, even if every frame was black. -/
theorem c3_accept_policy (env : Env) (t0 : ℚ) :
    (∀ u, (sampleIndex env 0 t0).1 = .ok u →
      (extractTs (sampleIndex env 0 t0).2).getLast? = some u ∧
      ∃ b, env.blackCheckResult u = some b ∧
        (b = false ∨
          (extractTs (sampleIndex env 0 t0).2).length = maxAttempts + 1)) ∧
    ((∀ t, env.extractSpawnOk t = true) →
     (∀ t, ∃ b, env.blackCheckResult t = some b) →
      ∃ u, (sampleIndex env 0 t0).1 = .ok u) := by
  obtain ⟨m, hm, htr, hok, herr⟩ :=
    sampleIndex_spec env maxAttempts 0 t0 (Nat.sub_zero _)
  constructor
  · intro u hu
    obtain ⟨hu1, b, hb, hcond⟩ := hok u hu
    refine ⟨?_, b, hb, ?_⟩
    · rw [htr, map_range_getLast?, hu1]
    · rcases hcond with h | h
      · exact Or.inl h
      · right
        rw [htr, List.length_map, List.length_range]
        omega
  · intro hs hb
    cases hres : (sampleIndex env 0 t0).1 with
    | ok u => exact ⟨u, rfl⟩
    | error e =>
      exfalso
      rcases herr e hres with ⟨-, h6⟩ | ⟨-, h6⟩
      · rw [hs _] at h6
        exact absurd h6 (by decide)
      · obtain ⟨b, hbeq⟩ := hb (t0 + 2 * (m : ℚ))
        rw [hbeq] at h6
        exact Option.some_ne_none b h6

theorem c3_witness :
    (extractTs (sampleIndex envCompositeFail 0 0).2).getLast? = some 0 ∧
    (∃ b, envCompositeFail.blackCheckResult 0 = some b ∧
      (b = false ∨
        (extractTs (sampleIndex envCompositeFail 0 0).2).length
          = maxAttempts + 1)) ∧
    ∃ u, (sampleIndex envCompositeFail 0 (0 : ℚ)).1 = .ok u := by
  have hok : (sampleIndex envCompositeFail 0 (0 : ℚ)).1 = .ok 0 := by
    rw [envCompositeFail_sample]
  have h := (c3_accept_policy envCompositeFail 0).1 0 hok
  exact ⟨h.1, h.2,
    (c3_accept_policy envCompositeFail 0).2 (fun _ => rfl) (fun _ => ⟨false, rfl⟩)⟩

/-- C4 (amended): once sampling has succeeded, the composite step fails
with `CompositeError` exactly when the composite command cannot be
spawned; the child's reported exit status and the number of frame files
present are never inspected. -/
theorem c4_composite_spawn_only (env : Env) (rows cols total : ℕ) (d : ℚ)
    (h1 : env.tempdirOk = true) (h2 : env.durationSpawnOk = true)
    (h3 : env.durationParse = some d)
    (h4 : (sampleFrames env (d / (total : ℚ)) (List.range total)).1 = .ok ()) :
    ((create_thumbnail_mosaic env rows cols total).1 = .error .compositeError
      ↔ env.compositeSpawnOk = false) := by
  rw [create_eq_afterSampling env rows cols total d h1 h2 h3 h4]
  constructor
  · intro h
    cases hcs : env.compositeSpawnOk with
    | false => rfl
    | true => exact absurd h (afterSampling_ne_compositeError env _ hcs)
  · intro h
    rw [afterSampling_compositeError env _ h]

theorem c4_witness :
    ((create_thumbnail_mosaic envCompositeFail 3 3 0).1
        = .error .compositeError
      ↔ envCompositeFail.compositeSpawnOk = false) :=
  c4_composite_spawn_only envCompositeFail 3 3 0 1 rfl rfl rfl rfl

/-- C4 (counterexample to the claim as stated): a run in which the
composite child reports failure and zero of the `3 × 3` required frame
files exist, yet `create_thumbnail_mosaic` succeeds and proceeds to the
overlay invocation — because the source never checks the composite exit
status or the frame count. -/
theorem c4_counterexample :
    envCompositeFail.compositeExitSuccess = false ∧
    envCompositeFail.framesPresent < 3 * 3 ∧
    (create_thumbnail_mosaic envCompositeFail 3 3 9).1 = Except.ok () ∧
    ExtCall.overlay ∈ (create_thumbnail_mosaic envCompositeFail 3 3 9).2 := by
  have hc := create_eq_afterSampling envCompositeFail 3 3 9 1 rfl rfl rfl
    (sampleFrames_ok envCompositeFail _ (fun _ => rfl) (fun _ => rfl) _)
  rw [hc, afterSampling_allOk envCompositeFail _ rfl rfl
    "/usr/share/fonts/truetype/dejavu/DejaVuSans.ttf" rfl rfl rfl]
  refine ⟨rfl, by decide, rfl, ?_⟩
  simp

/-- C5: the caption-escaping function is the identity on strings free of
backslash, colon and parentheses; its output never contains an unescaped
special character (it splits into non-special characters and
backslash-escape pairs); and the drawtext filter applies the very same
function to both the font path and the caption text. -/
theorem c5_escape_properties (s : List Char) :
    ((∀ c ∈ s, specialChar c = false) → escape_ffmpeg_drawtext_text s = s) ∧
    wellEscaped (escape_ffmpeg_drawtext_text s) = true ∧
    ∀ fontPath : List Char,
      buildDrawtextFilter fontPath s
        = "drawtext=fontfile=\x27".toList ++ escape_ffmpeg_drawtext_text fontPath
          ++ "\x27:text=\x27".toList ++ escape_ffmpeg_drawtext_text s
          ++ "\x27:x=10:y=10:fontsize=96:fontcolor=white:box=1:boxcolor=black@0.5".toList := by
  refine ⟨fun h => ?_, ?_, fun fontPath => rfl⟩
  · rw [escape_eq_escapeList]
    exact escapeList_id_of_safe s h
  · rw [escape_eq_escapeList]
    exact wellEscaped_escapeList s

theorem c5_witness :
    (∀ c ∈ "abc".toList, specialChar c = false) ∧
    escape_ffmpeg_drawtext_text "abc".toList = "abc".toList ∧
    wellEscaped (escape_ffmpeg_drawtext_text "a:b(c)".toList) = true :=
  ⟨by decide, (c5_escape_properties "abc".toList).1 (by decide),
   (c5_escape_properties "a:b(c)".toList).2.1⟩

/-- C6: the font resolver returns, for any existence predicate, the
first candidate of the fixed ordered list satisfying it (every earlier
candidate fails the predicate); it returns `none` exactly when no
candidate exists; and in that case the pipeline (once it reaches the
font step) fails with the no-usable-font error. -/
theorem c6_font_resolver (check : String → Bool) (env : Env)
    (rows cols total : ℕ) (d : ℚ)
    (h1 : env.tempdirOk = true) (h2 : env.durationSpawnOk = true)
    (h3 : env.durationParse = some d)
    (h4 : (sampleFrames env (d / (total : ℚ)) (List.range total)).1 = .ok ())
    (h5 : env.compositeSpawnOk = true) (h6 : env.resolutionSpawnOk = true) :
    (∀ s, find_default_font check = some s → check s = true ∧
      ∃ i, ∃ hi : i < font_paths.length, font_paths.get ⟨i, hi⟩ = s ∧
        ∀ j, ∀ hj : j < i, check (font_paths.get ⟨j, Nat.lt_trans hj hi⟩) = false) ∧
    (find_default_font check = none ↔ ∀ s ∈ font_paths, check s = false) ∧
    (find_default_font env.fontExists = none →
      (create_thumbnail_mosaic env rows cols total).1 = .error .noFontFound) := by
  refine ⟨?_, ?_, ?_⟩
  · intro s hfind
    exact find?_earliest check font_paths s hfind
  · simp [find_default_font, List.find?_eq_none]
  · intro hf
    rw [create_eq_afterSampling env rows cols total d h1 h2 h3 h4,
      afterSampling_noFont env _ h5 h6 hf]

theorem c6_witness :
    (create_thumbnail_mosaic envNoFont 3 3 0).1 = .error .noFontFound ∧
    (fun s => s == "/Library/Fonts/Arial.ttf") "/Library/Fonts/Arial.ttf" = true :=
  ⟨(c6_font_resolver envNoFont.fontExists envNoFont 3 3 0 1
      rfl rfl rfl rfl rfl rfl).2.2 rfl,
   ((c6_font_resolver (fun s => s == "/Library/Fonts/Arial.ttf") envNoFont 3 3 0 1
      rfl rfl rfl rfl rfl rfl).1 "/Library/Fonts/Arial.ttf" rfl).1⟩

/-- C7: in directory mode every allow-listed regular file is attempted
with its own per-file result (so a failure on one file never prevents a
later file from being attempted — the attempted file list is the same
whatever the per-file pipeline returns), while in single-file mode the
pipeline's first error is the run's (non-zero) result. -/
theorem c7_batch_isolation (p : FileInfo → Except PipelineError Unit)
    (es : List FileInfo) (f : FileInfo) (e : PipelineError) :
    runDirectory p (es.map Except.ok)
      = .ok ((es.filter fun g => g.isFile && is_video_file g.ext).map
          fun g => (g, p g)) ∧
    (∀ q : FileInfo → Except PipelineError Unit,
      (runDirectory p (es.map Except.ok)).map (List.map Prod.fst)
        = (runDirectory q (es.map Except.ok)).map (List.map Prod.fst)) ∧
    (runSingle p f = .error e ↔ p f = .error e) := by
  refine ⟨runDirectory_map_ok p es, ?_, Iff.rfl⟩
  intro q
  rw [runDirectory_map_ok p es, runDirectory_map_ok q es]
  simp [Except.map, List.map_map, Function.comp]

/-- C8: a directory entry is processed exactly when it is a regular file
whose extension, lowercased, is in the fixed allow-list; all other
entries are skipped. -/
theorem c8_allowlist (ext : Option String)
    (p : FileInfo → Except PipelineError Unit) (es : List FileInfo) :
    (is_video_file ext = true ↔ ((ext.getD "").toLower) ∈ video_extensions) ∧
    runDirectory p (es.map Except.ok)
      = .ok ((es.filter fun g => g.isFile && is_video_file g.ext).map
          fun g => (g, p g)) := by
  refine ⟨?_, runDirectory_map_ok p es⟩
  simp [is_video_file]

/-- C9: if the duration probe cannot run or its output does not parse,
`create_thumbnail_mosaic` returns an error and its trace contains no
frame-extraction invocation. -/
theorem c9_probe_abort (env : Env) (rows cols total : ℕ)
    (h1 : env.tempdirOk = true)
    (h2 : env.durationSpawnOk = false ∨ env.durationParse = none) :
    (∃ e, (create_thumbnail_mosaic env rows cols total).1 = .error e) ∧
    ∀ t, ExtCall.extract t ∉ (create_thumbnail_mosaic env rows cols total).2 := by
  have hcase : create_thumbnail_mosaic env rows cols total
      = (.error .probeSpawnError, [.probeDuration]) ∨
      create_thumbnail_mosaic env rows cols total
      = (.error .probeParseError, [.probeDuration]) := by
    unfold create_thumbnail_mosaic
    rw [if_pos h1]
    cases hds : env.durationSpawnOk with
    | false =>
      left
      rw [if_neg (by simp [hds])]
    | true =>
      rcases h2 with h2 | h2
      · rw [h2] at hds
        exact absurd hds (by decide)
      · right
        rw [if_pos rfl, h2]
  rcases hcase with h | h <;> rw [h] <;>
    exact ⟨⟨_, rfl⟩, fun t => by simp⟩

theorem c9_witness :
    (∃ e, (create_thumbnail_mosaic envBadProbe 3 3 9).1 = .error e) ∧
    ∀ t, ExtCall.extract t ∉ (create_thumbnail_mosaic envBadProbe 3 3 9).2 :=
  c9_probe_abort envBadProbe 3 3 9 rfl (Or.inr rfl)

/-- C10: the caption-escaping function is injective — distinct inputs
always escape to distinct outputs. -/
theorem c10_escape_injective (s t : List Char)
    (h : escape_ffmpeg_drawtext_text s = escape_ffmpeg_drawtext_text t) :
    s = t := by
  rw [escape_eq_escapeList, escape_eq_escapeList] at h
  exact escapeList_injective s t h

theorem c10_witness :
    escape_ffmpeg_drawtext_text "a:b".toList
        = escape_ffmpeg_drawtext_text "a:b".toList ∧
    "a:b".toList = "a:b".toList :=
  ⟨rfl, c10_escape_injective "a:b".toList "a:b".toList rfl⟩
